import Mathlib

/-!
Verification of the Stepper16bitsControl timeline compiler and pulse-replay
engine.  The definitions below are a shallow embedding of the Python source:

* `convert_step`   embeds `Motor.convert_step` (src/software/stepper/motor.py),
  with `pin_dir = 2*id` and `pin_step = 2*id+1` inlined from `Motor.__init__`.
* `parseSeq`       embeds `Seq.parse` (src/software/main_automat.py), i.e. the
  regular expression `^a([01])_s(\d+)_d([01])_v(\d+)$` applied with `re.match`.
  The program runs under MicroPython (it imports `machine` and `rp2`), whose
  minimal `re` matches `$` only at the true end of the string and whose `\d`
  is the ASCII class `[0-9]`; the embedding follows those semantics.
* `add_seq`        embeds `Automat.add_seq`: buffer growth, the baseline
  direction pass over every expanded slot, and the strided action pass.
* `automat_setup`  embeds the plan-compilation part of `Automat.__init__`
  (motor-count check, driver check, per-motor gcode folding, mode check),
  where `Automat.exit` / `sys.exit(1)` is embedded as `Except.error 1`.
* `sm_put` / `animate` embed `SM_16bits.put` and `Automat.animate`.

Machine integers: the Python ints involved are non-negative and the pulse
words stay below 2^32 (proved below), so plain `Nat` with `|||`, `<<<` and
`Nat.testBit` is a faithful model.
-/

namespace Stepper16

/-- One parsed gcode sequence, embedding the dict returned by `Seq.parse`:
`{'action': …, 'step': …, 'dir': …, 'speed': …}` (all Python ints). -/
structure SeqDict where
  action : Nat
  step   : Nat
  dir    : Nat
  speed  : Nat
deriving DecidableEq, Repr

/-- `Motor.convert_step` from src/software/stepper/motor.py:
`word32b = (dir << pin_dir) + (action << pin_step) + (dir << (16 + pin_dir))`
with `pin_dir = 2*id` and `pin_step = 2*id + 1`. -/
def convert_step (id dir action : Nat) : Nat :=
  (dir <<< (2 * id)) + (action <<< (2 * id + 1)) + (dir <<< (16 + 2 * id))

/-- `c.isDigit` for the regex class `\d` (ASCII decimal digits). -/
def isDigitChar (c : Char) : Bool := '0' ≤ c && c ≤ '9'

/-- The regex class `[01]`. -/
def isBit (c : Char) : Bool := c = '0' || c = '1'

/-- Numeric value of one decimal digit character. -/
def digitVal (c : Char) : Nat := c.toNat - '0'.toNat

/-- Python `int(...)` on a non-empty decimal digit string. -/
def decVal (ds : List Char) : Nat := ds.foldl (fun a c => 10 * a + digitVal c) 0

/-- Value of a captured `[01]` group after Python `int(...)`. -/
def bitVal (c : Char) : Nat := if c = '1' then 1 else 0

/-- `Seq.parse` from src/software/main_automat.py: `re.match` of
`^a([01])_s(\d+)_d([01])_v(\d+)$` on the instruction text, returning the
four captured fields as ints, or `none` when the text does not match.
The greedy `\d+` groups are each followed by a non-digit, so they are
modelled by `takeWhile`/`dropWhile`; `$` requires the true end of the
string (MicroPython's minimal `re`, which the rp2 target runs). -/
def parseSeq (cs : List Char) : Option SeqDict :=
  match cs with
  | c0 :: c1 :: c2 :: c3 :: rest =>
    if c0 = 'a' && isBit c1 && c2 = '_' && c3 = 's' then
      let ds := rest.takeWhile isDigitChar
      match rest.dropWhile isDigitChar with
      | d0 :: d1 :: d2 :: d3 :: d4 :: rest2 =>
        if d0 = '_' && d1 = 'd' && isBit d2 && d3 = '_' && d4 = 'v' then
          let vs := rest2.takeWhile isDigitChar
          let tail := rest2.dropWhile isDigitChar
          if !ds.isEmpty && !vs.isEmpty && tail.isEmpty then
            some ⟨bitVal c1, decVal ds, bitVal d2, decVal vs⟩
          else none
        else none
      | _ => none
    else none
  | _ => none

/-- The text shape generated by the grammar
`a<0|1>_s<digits>_d<0|1>_v<digits>` with the given four fields. -/
def goodSeq (b1 : Char) (ds : List Char) (b2 : Char) (vs : List Char) :
    List Char :=
  'a' :: b1 :: '_' :: 's' :: (ds ++ '_' :: 'd' :: b2 :: '_' :: 'v' :: vs)

/-- An instruction text matches the grammar
`a<0|1>_s<digits>_d<0|1>_v<digits>` exactly. -/
def matchesGrammar (cs : List Char) : Prop :=
  ∃ b1 ds b2 vs, isBit b1 = true ∧ isBit b2 = true ∧
    ds ≠ [] ∧ (∀ c ∈ ds, isDigitChar c = true) ∧
    vs ≠ [] ∧ (∀ c ∈ vs, isDigitChar c = true) ∧
    cs = goodSeq b1 ds b2 vs

/-- Compilation state of `Automat`: the shared 32-bit-word buffer
`self._seq16bits` and the per-motor write cursors `self._motors_len_seq`. -/
structure AutomatState where
  seq16bits      : List Nat
  motors_len_seq : Nat → Nat

/-- The state after `Automat.__init__` creates `self._seq16bits = array("I")`
and `self._motors_len_seq = {0:0, …, 7:0}`. -/
def initState : AutomatState := ⟨[], fun _ => 0⟩

/-- One Python statement `buf[idx] |= w` (no-op out of bounds; `add_seq` is
proved to stay in bounds). -/
def orAt (buf : List Nat) (idx w : Nat) : List Nat :=
  buf.set idx (buf.getD idx 0 ||| w)

/-- The growth step of `Automat.add_seq`: if
`steps + self._motors_len_seq[id_motor] > len(self._seq16bits)` then
`steps` zero words are appended. -/
def grow_seq (buf : List Nat) (cursor steps : Nat) : List Nat :=
  if steps + cursor > buf.length then buf ++ List.replicate steps 0 else buf

/-- The loop `for i in range(steps): buf[cursor+i] |= w` of `add_seq`
(the baseline direction pass). -/
def orRange (buf : List Nat) (cursor w : Nat) : Nat → List Nat
  | 0 => buf
  | n + 1 => orAt (orRange buf cursor w n) (cursor + n) w

/-- Number of iterations of Python `range(0, steps, stride)` for
`stride ≥ 1`: `⌈steps/stride⌉`. -/
def strideCount (steps stride : Nat) : Nat := (steps + stride - 1) / stride

/-- The loop `for i in range(0, steps, 1+speed): buf[cursor+i] |= w` of
`add_seq` (the action pass), iterating `n = strideCount steps stride` times
at indices `cursor + t*stride`. -/
def orStride (buf : List Nat) (cursor stride w : Nat) : Nat → List Nat
  | 0 => buf
  | n + 1 => orAt (orStride buf cursor stride w n) (cursor + n * stride) w

/-- `Automat.add_seq` (src/software/main_automat.py) after a successful
parse: expand `steps = steps * (1+speed)`, grow the buffer if needed, OR the
stop word over every expanded slot, OR the action word at stride `1+speed`,
then advance the motor's cursor by the expanded step count. -/
def add_seq (st : AutomatState) (id_motor : Nat) (d : SeqDict) : AutomatState :=
  let steps := d.step * (1 + d.speed)
  let cursor := st.motors_len_seq id_motor
  let buf0 := grow_seq st.seq16bits cursor steps
  let buf1 := orRange buf0 cursor (convert_step id_motor d.dir 0) steps
  let buf2 := orStride buf1 cursor (1 + d.speed)
    (convert_step id_motor d.dir d.action) (strideCount steps (1 + d.speed))
  { seq16bits := buf2
    motors_len_seq :=
      fun m => if m = id_motor then cursor + steps else st.motors_len_seq m }

/-- `Automat.add_seq` including its leading parse: `seq.parse()` returning
`None` makes `add_seq` call `self.exit()`, i.e. `sys.exit(1)`, embedded as
`Except.error 1`. -/
def add_seq_checked (st : AutomatState) (id_motor : Nat) (g : List Char) :
    Except Nat AutomatState :=
  match parseSeq g with
  | none => Except.error 1
  | some d => Except.ok (add_seq st id_motor d)

/-- The plan-compilation part of `Automat.__init__`:
count the motors with a non-empty gcode list, reject more than 8
(`self.exit()` = exit status 1), reject unknown drivers, fold `add_seq`
over every motor's gcode list in motor order, then check the mode.
`gcode_seq` lists, per motor id, that motor's instruction texts. -/
def automat_setup (driver mode : String)
    (gcode_seq : List (List (List Char))) : Except Nat AutomatState :=
  let nb_motors := (gcode_seq.filter (fun g => g.length > 0)).length
  if nb_motors > 8 then Except.error 1
  else if !(driver = "A4988" || driver = "TMC2208" || driver = "TMC2209") then
    Except.error 1
  else
    ((List.range nb_motors).foldlM
      (fun st i => (gcode_seq.getD i []).foldlM
        (fun st' g => add_seq_checked st' i g) st) initState).bind
      (fun st => if mode = "LOOP" || mode = "ONE" then Except.ok st
                 else Except.error 1)

/-- Modelled from the spec: the rp2 `StateMachine` TX FIFO behind
`SM_16bits.put` is MicroPython hardware support, not part of this
repository; per §4.4 of the spec `put` enqueues every word of the array, in
order, at the back of the consumer's queue. -/
structure SMState where
  queue : List Nat

/-- `SM_16bits.put` (src/software/sm/state_machine.py): hand the word array
to the state machine FIFO. -/
def sm_put (sm : SMState) (ar : List Nat) : SMState := ⟨sm.queue ++ ar⟩

/-- `Automat.animate`: one replay, `self._sm.put(self._seq16bits)`.  The
compiled timeline is only read, never written. -/
def animate (st : AutomatState) (sm : SMState) : SMState :=
  sm_put sm st.seq16bits

/-! ### Bit layout of `convert_step` -/

theorem convert_step_lt (id dir action : Nat) (hid : id < 8) (hd : dir ≤ 1)
    (ha : action ≤ 1) : convert_step id dir action < 2 ^ 32 := by
  have p1 : (2 : Nat) ^ (2 * id) ≤ 2 ^ 14 :=
    Nat.pow_le_pow_right (by norm_num) (by omega)
  have p2 : (2 : Nat) ^ (2 * id + 1) ≤ 2 ^ 15 :=
    Nat.pow_le_pow_right (by norm_num) (by omega)
  have p3 : (2 : Nat) ^ (16 + 2 * id) ≤ 2 ^ 30 :=
    Nat.pow_le_pow_right (by norm_num) (by omega)
  have h1 : dir <<< (2 * id) ≤ 2 ^ 14 := by
    rw [Nat.shiftLeft_eq]
    calc dir * 2 ^ (2 * id) ≤ 1 * 2 ^ 14 := Nat.mul_le_mul hd p1
      _ = 2 ^ 14 := one_mul _
  have h2 : action <<< (2 * id + 1) ≤ 2 ^ 15 := by
    rw [Nat.shiftLeft_eq]
    calc action * 2 ^ (2 * id + 1) ≤ 1 * 2 ^ 15 := Nat.mul_le_mul ha p2
      _ = 2 ^ 15 := one_mul _
  have h3 : dir <<< (16 + 2 * id) ≤ 2 ^ 30 := by
    rw [Nat.shiftLeft_eq]
    calc dir * 2 ^ (16 + 2 * id) ≤ 1 * 2 ^ 30 := Nat.mul_le_mul hd p3
      _ = 2 ^ 30 := one_mul _
  have hsum : convert_step id dir action ≤ 2 ^ 14 + 2 ^ 15 + 2 ^ 30 := by
    unfold convert_step; omega
  calc convert_step id dir action ≤ 2 ^ 14 + 2 ^ 15 + 2 ^ 30 := hsum
    _ < 2 ^ 32 := by norm_num

/-- Full bit characterization of the pulse word, for every bit position. -/
theorem convert_step_testBit (id dir action p : Nat) (hid : id < 8)
    (hd : dir ≤ 1) (ha : action ≤ 1) :
    Nat.testBit (convert_step id dir action) p =
      (decide (p = 2 * id) && decide (dir = 1)
        || decide (p = 2 * id + 1) && decide (action = 1)
        || decide (p = 16 + 2 * id) && decide (dir = 1)) := by
  by_cases hp : p < 32
  · have H : ∀ i < 8, ∀ d < 2, ∀ a < 2, ∀ q < 32,
        Nat.testBit (convert_step i d a) q =
          (decide (q = 2 * i) && decide (d = 1)
            || decide (q = 2 * i + 1) && decide (a = 1)
            || decide (q = 16 + 2 * i) && decide (d = 1)) := by decide
    exact H id hid dir (by omega) action (by omega) p hp
  · have hlt : convert_step id dir action < 2 ^ p :=
      calc convert_step id dir action < 2 ^ 32 :=
            convert_step_lt id dir action hid hd ha
        _ ≤ 2 ^ p := Nat.pow_le_pow_right (by norm_num) (by omega)
    have e1 : p ≠ 2 * id := by omega
    have e2 : p ≠ 2 * id + 1 := by omega
    have e3 : p ≠ 16 + 2 * id := by omega
    simp [Nat.testBit_lt_two_pow hlt, e1, e2, e3]

/-! ### Buffer write lemmas -/

theorem length_orAt (buf : List Nat) (idx w : Nat) :
    (orAt buf idx w).length = buf.length := List.length_set buf idx _

theorem getD_orAt_ne (buf : List Nat) (idx w j : Nat) (h : j ≠ idx) :
    (orAt buf idx w).getD j 0 = buf.getD j 0 := by
  simp [orAt, List.getD_eq_getElem?_getD, List.getElem?_set_ne (Ne.symm h)]

theorem getD_orAt_self (buf : List Nat) (idx w : Nat) (h : idx < buf.length) :
    (orAt buf idx w).getD idx 0 = buf.getD idx 0 ||| w := by
  simp [orAt, List.getD_eq_getElem?_getD, List.getElem?_set_self h]

theorem orAt_of_le (buf : List Nat) (idx w : Nat) (h : buf.length ≤ idx) :
    orAt buf idx w = buf := by
  simp [orAt, List.set_eq_of_length_le h]

theorem length_orRange (buf : List Nat) (cursor w : Nat) :
    ∀ n, (orRange buf cursor w n).length = buf.length
  | 0 => rfl
  | n + 1 => by rw [orRange, length_orAt, length_orRange buf cursor w n]

theorem getD_orRange_out (buf : List Nat) (cursor w n j : Nat)
    (h : j < cursor ∨ cursor + n ≤ j) :
    (orRange buf cursor w n).getD j 0 = buf.getD j 0 := by
  induction n with
  | zero => rfl
  | succ n ih =>
    rw [orRange, getD_orAt_ne _ _ _ _ (by omega)]
    exact ih (by omega)

theorem getD_orRange_mem (buf : List Nat) (cursor w n j : Nat)
    (h1 : cursor ≤ j) (h2 : j < cursor + n) (h3 : j < buf.length) :
    (orRange buf cursor w n).getD j 0 = buf.getD j 0 ||| w := by
  induction n with
  | zero => omega
  | succ n ih =>
    rw [orRange]
    by_cases hj : j = cursor + n
    · subst hj
      rw [getD_orAt_self _ _ _ (by rw [length_orRange]; exact h3),
        getD_orRange_out buf cursor w n _ (Or.inr (le_refl _))]
    · rw [getD_orAt_ne _ _ _ _ hj]
      exact ih (by omega)

theorem testBit_getD_orRange (buf : List Nat) (cursor w n j p : Nat)
    (hw : Nat.testBit w p = false) :
    Nat.testBit ((orRange buf cursor w n).getD j 0) p =
      Nat.testBit (buf.getD j 0) p := by
  induction n with
  | zero => rfl
  | succ n ih =>
    rw [orRange]
    by_cases hj : j = cursor + n
    · subst hj
      by_cases hb : cursor + n < (orRange buf cursor w n).length
      · rw [getD_orAt_self _ _ _ hb, Nat.testBit_or, hw, Bool.or_false]
        exact ih
      · rw [orAt_of_le _ _ _ (by omega)]
        exact ih
    · rw [getD_orAt_ne _ _ _ _ hj]
      exact ih

theorem length_orStride (buf : List Nat) (cursor stride w : Nat) :
    ∀ n, (orStride buf cursor stride w n).length = buf.length
  | 0 => rfl
  | n + 1 => by
    rw [orStride, length_orAt, length_orStride buf cursor stride w n]

theorem getD_orStride_out (buf : List Nat) (cursor stride w n j : Nat)
    (h : ∀ t < n, j ≠ cursor + t * stride) :
    (orStride buf cursor stride w n).getD j 0 = buf.getD j 0 := by
  induction n with
  | zero => rfl
  | succ n ih =>
    rw [orStride, getD_orAt_ne _ _ _ _ (h n (by omega))]
    exact ih (fun t ht => h t (by omega))

theorem getD_orStride_hit (buf : List Nat) (cursor stride w n j t : Nat)
    (hs : 1 ≤ stride) (ht : t < n) (hj : j = cursor + t * stride)
    (hb : j < buf.length) :
    (orStride buf cursor stride w n).getD j 0 = buf.getD j 0 ||| w := by
  induction n with
  | zero => omega
  | succ n ih =>
    rw [orStride]
    by_cases he : j = cursor + n * stride
    · rw [he, getD_orAt_self _ _ _ (by rw [length_orStride]; omega)]
      rw [getD_orStride_out]
      intro t' ht' hcon
      have h1 : t' * stride = n * stride := by omega
      have h2 : t' = n := Nat.eq_of_mul_eq_mul_right (by omega) h1
      omega
    · have htn : t < n := by
        rcases Nat.lt_succ_iff_lt_or_eq.mp ht with h | h
        · exact h
        · exact absurd (by rw [hj, h]) he
      rw [getD_orAt_ne _ _ _ _ he]
      exact ih htn

theorem testBit_getD_orStride (buf : List Nat) (cursor stride w n j p : Nat)
    (hw : Nat.testBit w p = false) :
    Nat.testBit ((orStride buf cursor stride w n).getD j 0) p =
      Nat.testBit (buf.getD j 0) p := by
  induction n with
  | zero => rfl
  | succ n ih =>
    rw [orStride]
    by_cases hj : j = cursor + n * stride
    · subst hj
      by_cases hb :
          cursor + n * stride < (orStride buf cursor stride w n).length
      · rw [getD_orAt_self _ _ _ hb, Nat.testBit_or, hw, Bool.or_false]
        exact ih
      · rw [orAt_of_le _ _ _ (by omega)]
        exact ih
    · rw [getD_orAt_ne _ _ _ _ hj]
      exact ih

/-! ### Growth lemmas -/

theorem getD_replicate_zero (n m : Nat) :
    (List.replicate n (0 : Nat)).getD m 0 = 0 := by
  simp only [List.getD_eq_getElem?_getD, List.getElem?_replicate]
  split <;> simp

theorem getD_grow_seq (buf : List Nat) (cursor steps j : Nat) :
    (grow_seq buf cursor steps).getD j 0 = buf.getD j 0 := by
  unfold grow_seq
  split
  · by_cases h : j < buf.length
    · exact List.getD_append _ _ _ _ h
    · rw [List.getD_append_right _ _ _ _ (by omega), getD_replicate_zero,
        List.getD_eq_default _ _ (by omega)]
  · rfl

theorem length_grow_seq_ge (buf : List Nat) (cursor steps : Nat) :
    buf.length ≤ (grow_seq buf cursor steps).length := by
  unfold grow_seq
  split <;> simp

theorem length_grow_seq_bound (buf : List Nat) (cursor steps : Nat)
    (h : cursor ≤ buf.length) :
    cursor + steps ≤ (grow_seq buf cursor steps).length := by
  unfold grow_seq
  split
  · simp only [List.length_append, List.length_replicate]
    omega
  · omega

theorem length_grow_seq_eq (buf : List Nat) (cursor steps : Nat) :
    (grow_seq buf cursor steps).length =
      if steps + cursor > buf.length then buf.length + steps
      else buf.length := by
  unfold grow_seq
  split <;> simp_all

/-! ### `add_seq` unfolding lemmas -/

theorem add_seq_seq16bits (st : AutomatState) (id_motor : Nat) (d : SeqDict) :
    (add_seq st id_motor d).seq16bits =
      orStride
        (orRange
          (grow_seq st.seq16bits (st.motors_len_seq id_motor)
            (d.step * (1 + d.speed)))
          (st.motors_len_seq id_motor) (convert_step id_motor d.dir 0)
          (d.step * (1 + d.speed)))
        (st.motors_len_seq id_motor) (1 + d.speed)
        (convert_step id_motor d.dir d.action)
        (strideCount (d.step * (1 + d.speed)) (1 + d.speed)) := rfl

theorem add_seq_cursor_self (st : AutomatState) (id_motor : Nat) (d : SeqDict) :
    (add_seq st id_motor d).motors_len_seq id_motor =
      st.motors_len_seq id_motor + d.step * (1 + d.speed) := by
  simp [add_seq]

theorem add_seq_cursor_other (st : AutomatState) (id_motor : Nat) (d : SeqDict)
    (m : Nat) (h : m ≠ id_motor) :
    (add_seq st id_motor d).motors_len_seq m = st.motors_len_seq m := by
  simp [add_seq, h]

theorem add_seq_length (st : AutomatState) (id_motor : Nat) (d : SeqDict) :
    (add_seq st id_motor d).seq16bits.length =
      (grow_seq st.seq16bits (st.motors_len_seq id_motor)
        (d.step * (1 + d.speed))).length := by
  rw [add_seq_seq16bits, length_orStride, length_orRange]

theorem add_seq_inv (st : AutomatState) (id_motor : Nat) (d : SeqDict)
    (hinv : ∀ m, st.motors_len_seq m ≤ st.seq16bits.length) :
    ∀ m, (add_seq st id_motor d).motors_len_seq m ≤
      (add_seq st id_motor d).seq16bits.length := by
  intro m
  rw [add_seq_length]
  by_cases h : m = id_motor
  · subst h
    rw [add_seq_cursor_self]
    exact length_grow_seq_bound _ _ _ (hinv m)
  · rw [add_seq_cursor_other _ _ _ _ h]
    calc st.motors_len_seq m ≤ st.seq16bits.length := hinv m
      _ ≤ _ := length_grow_seq_ge _ _ _

theorem strideCount_mul (s k : Nat) (hk : 1 ≤ k) : strideCount (s * k) k = s := by
  unfold strideCount
  have h1 : s * k + k - 1 = (k - 1) + k * s := by
    rw [Nat.mul_comm k s]; omega
  rw [h1, Nat.add_mul_div_left _ _ (by omega), Nat.div_eq_of_lt (by omega)]
  omega

/-- The word finally stored in slot `cursor + i` of the request's range:
the baseline stop word is OR-ed everywhere, and the action word additionally
at the slots whose offset is a multiple of `1 + speed`. -/
theorem add_seq_getD_slot (st : AutomatState) (id_motor : Nat) (d : SeqDict)
    (i : Nat) (hcur : st.motors_len_seq id_motor ≤ st.seq16bits.length)
    (hi : i < d.step * (1 + d.speed)) :
    (add_seq st id_motor d).seq16bits.getD (st.motors_len_seq id_motor + i) 0 =
      if i % (1 + d.speed) = 0 then
        st.seq16bits.getD (st.motors_len_seq id_motor + i) 0
          ||| convert_step id_motor d.dir 0
          ||| convert_step id_motor d.dir d.action
      else
        st.seq16bits.getD (st.motors_len_seq id_motor + i) 0
          ||| convert_step id_motor d.dir 0 := by
  have hcount : strideCount (d.step * (1 + d.speed)) (1 + d.speed) = d.step :=
    strideCount_mul _ _ (by omega)
  have hlen : st.motors_len_seq id_motor + d.step * (1 + d.speed) ≤
      (grow_seq st.seq16bits (st.motors_len_seq id_motor)
        (d.step * (1 + d.speed))).length :=
    length_grow_seq_bound _ _ _ hcur
  have hjb : st.motors_len_seq id_motor + i <
      (grow_seq st.seq16bits (st.motors_len_seq id_motor)
        (d.step * (1 + d.speed))).length := by omega
  have hmem : (orRange
      (grow_seq st.seq16bits (st.motors_len_seq id_motor)
        (d.step * (1 + d.speed)))
      (st.motors_len_seq id_motor) (convert_step id_motor d.dir 0)
      (d.step * (1 + d.speed))).getD (st.motors_len_seq id_motor + i) 0 =
      st.seq16bits.getD (st.motors_len_seq id_motor + i) 0
        ||| convert_step id_motor d.dir 0 := by
    rw [getD_orRange_mem _ _ _ _ _ (by omega) (by omega) hjb, getD_grow_seq]
  rw [add_seq_seq16bits]
  by_cases hmod : i % (1 + d.speed) = 0
  · have hdvd : (1 + d.speed) ∣ i := Nat.dvd_of_mod_eq_zero hmod
    have hit : i / (1 + d.speed) * (1 + d.speed) = i := Nat.div_mul_cancel hdvd
    have htlt : i / (1 + d.speed) <
        strideCount (d.step * (1 + d.speed)) (1 + d.speed) := by
      rw [hcount]
      by_contra hge
      push_neg at hge
      have := (Nat.le_div_iff_mul_le (k := 1 + d.speed) (by omega)).mp hge
      omega
    rw [getD_orStride_hit _ _ _ _ _ _ (i / (1 + d.speed)) (by omega) htlt
      (by omega) (by rw [length_orRange]; exact hjb)]
    rw [hmem, if_pos hmod]
  · rw [getD_orStride_out]
    · rw [hmem, if_neg hmod]
    · intro t ht hcon
      have hieq : i = t * (1 + d.speed) := by omega
      rw [hieq, Nat.mul_mod_left] at hmod
      exact hmod rfl

/-- Bits that both OR-ed words leave at zero survive `add_seq` unchanged,
in every slot. -/
theorem add_seq_testBit_frame (st : AutomatState) (id_motor : Nat)
    (d : SeqDict) (j p : Nat)
    (h0 : Nat.testBit (convert_step id_motor d.dir 0) p = false)
    (h1 : Nat.testBit (convert_step id_motor d.dir d.action) p = false) :
    Nat.testBit ((add_seq st id_motor d).seq16bits.getD j 0) p =
      Nat.testBit (st.seq16bits.getD j 0) p := by
  rw [add_seq_seq16bits, testBit_getD_orStride _ _ _ _ _ _ _ h1,
    testBit_getD_orRange _ _ _ _ _ _ h0, getD_grow_seq]

/-- All four bit positions owned by a channel other than `id_motor` are
absent from the pulse words of `id_motor`. -/
theorem convert_step_testBit_other (id dir action j : Nat) (hid : id < 8)
    (hj : j < 8) (hne : j ≠ id) (hd : dir ≤ 1) (ha : action ≤ 1) :
    Nat.testBit (convert_step id dir action) (2 * j) = false ∧
    Nat.testBit (convert_step id dir action) (2 * j + 1) = false ∧
    Nat.testBit (convert_step id dir action) (16 + 2 * j) = false ∧
    Nat.testBit (convert_step id dir action) (16 + 2 * j + 1) = false := by
  refine ⟨?_, ?_, ?_, ?_⟩ <;>
    rw [convert_step_testBit _ _ _ _ hid hd ha] <;>
    · have f1 : ¬ (2 * j = 2 * id) := by omega
      have f2 : ¬ (2 * j = 2 * id + 1) := by omega
      have f3 : ¬ (2 * j = 16 + 2 * id) := by omega
      have f4 : ¬ (2 * j + 1 = 2 * id) := by omega
      have f5 : ¬ (2 * j + 1 = 2 * id + 1) := by omega
      have f6 : ¬ (2 * j + 1 = 16 + 2 * id) := by omega
      have f7 : ¬ (16 + 2 * j = 2 * id) := by omega
      have f8 : ¬ (16 + 2 * j = 2 * id + 1) := by omega
      have f9 : ¬ (16 + 2 * j = 16 + 2 * id) := by omega
      have fa : ¬ (16 + 2 * j + 1 = 2 * id) := by omega
      have fb : ¬ (16 + 2 * j + 1 = 2 * id + 1) := by omega
      have fc : ¬ (16 + 2 * j + 1 = 16 + 2 * id) := by omega
      simp [f1, f2, f3, f4, f5, f6, f7, f8, f9, fa, fb, fc]

end Stepper16
namespace Stepper16

theorem takeWhile_append_stop (p : Char → Bool) (x : Char) (r ds : List Char)
    (hds : ∀ c ∈ ds, p c = true) (hx : p x = false) :
    (ds ++ x :: r).takeWhile p = ds ∧ (ds ++ x :: r).dropWhile p = x :: r := by
  induction ds with
  | nil => simp [List.takeWhile_cons, List.dropWhile_cons, hx]
  | cons c cs ih =>
    have hc : p c = true := hds c (by simp)
    have ih2 := ih (fun c' hc' => hds c' (by simp [hc']))
    simp [List.takeWhile_cons, List.dropWhile_cons, hc, ih2.1, ih2.2]

theorem parse_good (b1 b2 : Char) (ds vs : List Char)
    (h1 : isBit b1 = true) (h2 : isBit b2 = true)
    (hds : ds ≠ []) (hdsd : ∀ c ∈ ds, isDigitChar c = true)
    (hvs : vs ≠ []) (hvsd : ∀ c ∈ vs, isDigitChar c = true) :
    parseSeq (goodSeq b1 ds b2 vs) =
      some ⟨bitVal b1, decVal ds, bitVal b2, decVal vs⟩ := by
  have hu : isDigitChar '_' = false := rfl
  have ht := takeWhile_append_stop isDigitChar '_'
    ('d' :: b2 :: '_' :: 'v' :: vs) ds hdsd hu
  simp only [goodSeq, parseSeq, h1, h2, ht.1, ht.2,
    List.takeWhile_eq_self_iff.mpr hvsd, List.dropWhile_eq_nil_iff.mpr hvsd,
    List.isEmpty_eq_false.mpr hds, List.isEmpty_eq_false.mpr hvs]
  simp

end Stepper16
namespace Stepper16

theorem parse_some_shape (cs : List Char) (d : SeqDict)
    (h : parseSeq cs = some d) : matchesGrammar cs := by
  match cs with
  | [] => simp [parseSeq] at h
  | [c0] => simp [parseSeq] at h
  | [c0, c1] => simp [parseSeq] at h
  | [c0, c1, c2] => simp [parseSeq] at h
  | c0 :: c1 :: c2 :: c3 :: rest =>
    rw [parseSeq] at h
    split at h
    case isFalse => exact absurd h (by simp)
    case isTrue hc1 =>
      simp only [Bool.and_eq_true, decide_eq_true_eq] at hc1
      obtain ⟨⟨⟨ha, hb1⟩, hu1⟩, hs1⟩ := hc1
      split at h
      case h_2 => exact absurd h (by simp)
      case h_1 d0 d1 d2 d3 d4 rest2 heq =>
        split at h
        case isFalse => exact absurd h (by simp)
        case isTrue hc2 =>
          simp only [Bool.and_eq_true, decide_eq_true_eq] at hc2
          obtain ⟨⟨⟨⟨hd0, hd1⟩, hb2⟩, hd3⟩, hd4⟩ := hc2
          dsimp only at h
          split at h
          case isFalse => exact absurd h (by simp)
          case isTrue hc3 =>
            simp only [Bool.and_eq_true, Bool.not_eq_true'] at hc3
            obtain ⟨⟨hdsne, hvsne⟩, htail⟩ := hc3
            have hrest : rest.takeWhile isDigitChar ++
                (d0 :: d1 :: d2 :: d3 :: d4 :: rest2) = rest := by
              rw [← heq, List.takeWhile_append_dropWhile]
            have hrest2 : rest2.takeWhile isDigitChar ++
                rest2.dropWhile isDigitChar = rest2 :=
              List.takeWhile_append_dropWhile _ _
            have hdsd : ∀ c ∈ rest.takeWhile isDigitChar,
                isDigitChar c = true := fun c hc => List.mem_takeWhile_imp hc
            have hvsd : ∀ c ∈ rest2.takeWhile isDigitChar,
                isDigitChar c = true := fun c hc => List.mem_takeWhile_imp hc
            have hdsne' : rest.takeWhile isDigitChar ≠ [] :=
              List.isEmpty_eq_false.mp hdsne
            have hvsne' : rest2.takeWhile isDigitChar ≠ [] :=
              List.isEmpty_eq_false.mp hvsne
            have htail' : rest2.dropWhile isDigitChar = [] :=
              List.isEmpty_iff.mp htail
            subst ha hu1 hs1 hd0 hd1 hd3 hd4
            refine ⟨c1, rest.takeWhile isDigitChar, d2,
              rest2.takeWhile isDigitChar, hb1, hb2, hdsne', hdsd,
              hvsne', hvsd, ?_⟩
            rw [htail'] at hrest2
            simp only [List.append_nil] at hrest2
            rw [goodSeq, hrest2, hrest]

end Stepper16
namespace Stepper16

theorem convert_step_stepBit (id dir action : Nat) (hid : id < 8)
    (hd : dir ≤ 1) (ha : action ≤ 1) :
    Nat.testBit (convert_step id dir action) (2 * id + 1) =
      decide (action = 1) := by
  rw [convert_step_testBit _ _ _ _ hid hd ha]
  have f1 : ¬ (2 * id + 1 = 2 * id) := by omega
  have f2 : ¬ (2 * id + 1 = 16 + 2 * id) := by omega
  simp [f1, f2]

theorem convert_step_dirBit (id dir action : Nat) (hid : id < 8)
    (hd : dir ≤ 1) (ha : action ≤ 1) :
    Nat.testBit (convert_step id dir action) (2 * id) = decide (dir = 1) := by
  rw [convert_step_testBit _ _ _ _ hid hd ha]
  have f1 : ¬ (2 * id = 2 * id + 1) := by omega
  have f2 : ¬ (2 * id = 16 + 2 * id) := by omega
  simp [f1, f2]

end Stepper16
namespace Stepper16

/-- C1: merging a move request (action = 1) with `s` steps and speed factor
`k` for a channel whose write cursor is `c` asserts the phase-A step bit at
exactly the `s` slots `c + j*(1+k)` for `j < s`, and every other slot in
`[c, c + s*(1+k))` has the step bit cleared and carries the direction bit. -/
theorem c1_move_pulse_pattern (st : AutomatState) (id_motor : Nat)
    (d : SeqDict) (hid : id_motor < 8) (hdir : d.dir ≤ 1) (hact : d.action = 1)
    (hcur : st.motors_len_seq id_motor ≤ st.seq16bits.length)
    (hclear : ∀ i < d.step * (1 + d.speed),
      Nat.testBit (st.seq16bits.getD (st.motors_len_seq id_motor + i) 0)
        (2 * id_motor) = false ∧
      Nat.testBit (st.seq16bits.getD (st.motors_len_seq id_motor + i) 0)
        (2 * id_motor + 1) = false) :
    (∀ j < d.step,
      Nat.testBit ((add_seq st id_motor d).seq16bits.getD
        (st.motors_len_seq id_motor + j * (1 + d.speed)) 0)
        (2 * id_motor + 1) = true) ∧
    (∀ i < d.step * (1 + d.speed), i % (1 + d.speed) ≠ 0 →
      Nat.testBit ((add_seq st id_motor d).seq16bits.getD
        (st.motors_len_seq id_motor + i) 0) (2 * id_motor + 1) = false ∧
      Nat.testBit ((add_seq st id_motor d).seq16bits.getD
        (st.motors_len_seq id_motor + i) 0) (2 * id_motor) =
        decide (d.dir = 1)) := by
  constructor
  · intro j hj
    have hi : j * (1 + d.speed) < d.step * (1 + d.speed) :=
      (Nat.mul_lt_mul_right (by omega)).mpr hj
    rw [add_seq_getD_slot st id_motor d _ hcur hi,
      if_pos (Nat.mul_mod_left j (1 + d.speed)), Nat.testBit_or,
      Nat.testBit_or, (hclear _ hi).2,
      convert_step_stepBit _ _ _ hid hdir (by omega),
      convert_step_stepBit _ _ _ hid hdir (by omega)]
    simp [hact]
  · intro i hi hmod
    constructor
    · rw [add_seq_getD_slot st id_motor d _ hcur hi, if_neg hmod,
        Nat.testBit_or, (hclear _ hi).2,
        convert_step_stepBit _ _ _ hid hdir (by omega)]
      simp
    · rw [add_seq_getD_slot st id_motor d _ hcur hi, if_neg hmod,
        Nat.testBit_or, (hclear _ hi).1,
        convert_step_dirBit _ _ _ hid hdir (by omega)]
      simp

/-- C1 witness: two steps at speed factor 1 from the empty timeline; the
step bit of channel 0 is set at slots 0 and 2 and cleared at slot 1, which
carries the direction bit. -/
theorem c1_move_pulse_pattern_witness :
    Nat.testBit ((add_seq initState 0 ⟨1, 2, 1, 1⟩).seq16bits.getD 0 0) 1
      = true ∧
    Nat.testBit ((add_seq initState 0 ⟨1, 2, 1, 1⟩).seq16bits.getD 2 0) 1
      = true ∧
    Nat.testBit ((add_seq initState 0 ⟨1, 2, 1, 1⟩).seq16bits.getD 1 0) 1
      = false ∧
    Nat.testBit ((add_seq initState 0 ⟨1, 2, 1, 1⟩).seq16bits.getD 1 0) 0
      = true := by
  have h := c1_move_pulse_pattern initState 0 ⟨1, 2, 1, 1⟩ (by decide)
    (by decide) rfl (by decide) (by decide)
  exact ⟨by simpa using h.1 0 (by decide), by simpa using h.1 1 (by decide),
    by simpa using (h.2 1 (by decide) (by decide)).1,
    by simpa using (h.2 1 (by decide) (by decide)).2⟩

end Stepper16
namespace Stepper16

/-- C2 (amended): the Timeline never shrinks, it grows exactly when
`expandedSteps + cursor` exceeds the current length (by `expandedSteps`
zero words), and after any merge every channel's cursor — hence the
maximum expanded step count — is at most the Timeline length. -/
theorem c2_length_monotone (st : AutomatState) (id_motor : Nat) (d : SeqDict)
    (hinv : ∀ m, st.motors_len_seq m ≤ st.seq16bits.length) :
    (add_seq st id_motor d).seq16bits.length =
      (if d.step * (1 + d.speed) + st.motors_len_seq id_motor >
          st.seq16bits.length
        then st.seq16bits.length + d.step * (1 + d.speed)
        else st.seq16bits.length) ∧
    st.seq16bits.length ≤ (add_seq st id_motor d).seq16bits.length ∧
    ∀ m, (add_seq st id_motor d).motors_len_seq m ≤
      (add_seq st id_motor d).seq16bits.length := by
  refine ⟨?_, ?_, add_seq_inv st id_motor d hinv⟩
  · rw [add_seq_length, length_grow_seq_eq]
  · rw [add_seq_length]
    exact length_grow_seq_ge _ _ _

/-- C2 witness: one request of 3 steps at speed factor 1 on the empty
timeline grows it to exactly 6 slots, and both cursors stay in bounds. -/
theorem c2_length_monotone_witness :
    initState.seq16bits.length ≤
      (add_seq initState 0 ⟨1, 3, 0, 1⟩).seq16bits.length ∧
    (add_seq initState 0 ⟨1, 3, 0, 1⟩).motors_len_seq 0 ≤
      (add_seq initState 0 ⟨1, 3, 0, 1⟩).seq16bits.length ∧
    (add_seq initState 0 ⟨1, 3, 0, 1⟩).seq16bits.length = 6 := by
  have h := c2_length_monotone initState 0 ⟨1, 3, 0, 1⟩
    (fun m => by simp [initState])
  exact ⟨h.2.1, h.2.2 0, by simpa using h.1⟩

/-- C2 counterexample: channel 0 merges 6 expanded steps, then channel 1
merges 10 expanded steps; the growth step appends 10 further words to the
6-slot Timeline, giving length 16, while the maximum expanded step count
across channels is 10. -/
theorem c2_counterexample :
    (add_seq (add_seq initState 0 ⟨1, 6, 1, 0⟩) 1 ⟨1, 10, 0, 0⟩).seq16bits.length
      = 16 ∧
    (add_seq (add_seq initState 0 ⟨1, 6, 1, 0⟩) 1 ⟨1, 10, 0, 0⟩).motors_len_seq 0
      = 6 ∧
    (add_seq (add_seq initState 0 ⟨1, 6, 1, 0⟩) 1 ⟨1, 10, 0, 0⟩).motors_len_seq 1
      = 10 ∧
    (add_seq (add_seq initState 0 ⟨1, 6, 1, 0⟩) 1 ⟨1, 10, 0, 0⟩).seq16bits.length
      ≠ max
        ((add_seq (add_seq initState 0 ⟨1, 6, 1, 0⟩) 1
          ⟨1, 10, 0, 0⟩).motors_len_seq 0)
        ((add_seq (add_seq initState 0 ⟨1, 6, 1, 0⟩) 1
          ⟨1, 10, 0, 0⟩).motors_len_seq 1) := by
  refine ⟨by decide, by decide, by decide, by decide⟩

/-- C3: the 32-bit pulse word of `convert_step` sets the direction bit
`2*id` in phase A and `16 + 2*id` in phase B, the step bit `2*id + 1` to
`action` in phase A only, keeps the phase-B step bit `16 + 2*id + 1`
always clear, and sets no other bit; being a plain function of `id`,
`dir` and `action`, it is pure. -/
theorem c3_convert_step_layout (id dir action : Nat) (hid : id < 8)
    (hd : dir ≤ 1) (ha : action ≤ 1) :
    Nat.testBit (convert_step id dir action) (2 * id) = decide (dir = 1) ∧
    Nat.testBit (convert_step id dir action) (16 + 2 * id) =
      decide (dir = 1) ∧
    Nat.testBit (convert_step id dir action) (2 * id + 1) =
      decide (action = 1) ∧
    Nat.testBit (convert_step id dir action) (16 + 2 * id + 1) = false ∧
    ∀ p, p ≠ 2 * id → p ≠ 2 * id + 1 → p ≠ 16 + 2 * id →
      Nat.testBit (convert_step id dir action) p = false := by
  refine ⟨convert_step_dirBit _ _ _ hid hd ha, ?_, ?_, ?_, ?_⟩
  · rw [convert_step_testBit _ _ _ _ hid hd ha]
    have f1 : ¬ (16 + 2 * id = 2 * id) := by omega
    have f2 : ¬ (16 + 2 * id = 2 * id + 1) := by omega
    simp [f1, f2]
  · exact convert_step_stepBit _ _ _ hid hd ha
  · rw [convert_step_testBit _ _ _ _ hid hd ha]
    have f1 : ¬ (16 + 2 * id + 1 = 2 * id) := by omega
    have f2 : ¬ (16 + 2 * id + 1 = 2 * id + 1) := by omega
    have f3 : ¬ (16 + 2 * id + 1 = 16 + 2 * id) := by omega
    simp [f1, f2, f3]
  · intro p hp1 hp2 hp3
    rw [convert_step_testBit _ _ _ _ hid hd ha]
    simp [hp1, hp2, hp3]

/-- C3 witness: channel 5 moving forward sets exactly bits 10, 11 and 26. -/
theorem c3_convert_step_layout_witness :
    Nat.testBit (convert_step 5 1 1) 10 = true ∧
    Nat.testBit (convert_step 5 1 1) 26 = true ∧
    Nat.testBit (convert_step 5 1 1) 11 = true ∧
    Nat.testBit (convert_step 5 1 1) 27 = false ∧
    Nat.testBit (convert_step 5 1 1) 12 = false := by
  have h := c3_convert_step_layout 5 1 1 (by decide) (by decide) (by decide)
  exact ⟨by simpa using h.1, by simpa using h.2.1, by simpa using h.2.2.1,
    by simpa using h.2.2.2.1,
    by simpa using h.2.2.2.2 12 (by decide) (by decide) (by decide)⟩

end Stepper16
namespace Stepper16

/-- C4: merging one channel's request never alters any bit position owned
by a different channel in any already-existing slot: all four bits `2*j`,
`2*j+1`, `16+2*j`, `16+2*j+1` of every slot present before the merge are
unchanged. -/
theorem c4_merge_frame (st : AutomatState) (id_motor : Nat) (d : SeqDict)
    (j : Nat) (hid : id_motor < 8) (hj : j < 8) (hne : j ≠ id_motor)
    (hd : d.dir ≤ 1) (ha : d.action ≤ 1) (idx : Nat)
    (hidx : idx < st.seq16bits.length) :
    Nat.testBit ((add_seq st id_motor d).seq16bits.getD idx 0) (2 * j) =
      Nat.testBit (st.seq16bits.getD idx 0) (2 * j) ∧
    Nat.testBit ((add_seq st id_motor d).seq16bits.getD idx 0) (2 * j + 1) =
      Nat.testBit (st.seq16bits.getD idx 0) (2 * j + 1) ∧
    Nat.testBit ((add_seq st id_motor d).seq16bits.getD idx 0) (16 + 2 * j) =
      Nat.testBit (st.seq16bits.getD idx 0) (16 + 2 * j) ∧
    Nat.testBit ((add_seq st id_motor d).seq16bits.getD idx 0)
        (16 + 2 * j + 1) =
      Nat.testBit (st.seq16bits.getD idx 0) (16 + 2 * j + 1) := by
  have h0 := convert_step_testBit_other id_motor d.dir 0 j hid hj hne hd
    (by omega)
  have h1 := convert_step_testBit_other id_motor d.dir d.action j hid hj hne
    hd ha
  exact ⟨add_seq_testBit_frame st id_motor d idx _ h0.1 h1.1,
    add_seq_testBit_frame st id_motor d idx _ h0.2.1 h1.2.1,
    add_seq_testBit_frame st id_motor d idx _ h0.2.2.1 h1.2.2.1,
    add_seq_testBit_frame st id_motor d idx _ h0.2.2.2 h1.2.2.2⟩

/-- C4 witness: the spec's own scenario — channel 0 compiled with
`a1_s10_d1_v0`, then channel 1 merged with `a1_s5_d0_v1`; channel 0's bits
at slot 3 are untouched by channel 1's merge. -/
theorem c4_merge_frame_witness :
    Nat.testBit ((add_seq (add_seq initState 0 ⟨1, 10, 1, 0⟩) 1
        ⟨1, 5, 0, 1⟩).seq16bits.getD 3 0) 0 =
      Nat.testBit ((add_seq initState 0 ⟨1, 10, 1, 0⟩).seq16bits.getD 3 0) 0 ∧
    Nat.testBit ((add_seq (add_seq initState 0 ⟨1, 10, 1, 0⟩) 1
        ⟨1, 5, 0, 1⟩).seq16bits.getD 3 0) 1 =
      Nat.testBit ((add_seq initState 0 ⟨1, 10, 1, 0⟩).seq16bits.getD 3 0) 1 ∧
    Nat.testBit ((add_seq (add_seq initState 0 ⟨1, 10, 1, 0⟩) 1
        ⟨1, 5, 0, 1⟩).seq16bits.getD 3 0) 16 =
      Nat.testBit ((add_seq initState 0 ⟨1, 10, 1, 0⟩).seq16bits.getD 3 0) 16 ∧
    Nat.testBit ((add_seq (add_seq initState 0 ⟨1, 10, 1, 0⟩) 1
        ⟨1, 5, 0, 1⟩).seq16bits.getD 3 0) 17 =
      Nat.testBit ((add_seq initState 0 ⟨1, 10, 1, 0⟩).seq16bits.getD 3 0) 17
    := by
  have h := c4_merge_frame (add_seq initState 0 ⟨1, 10, 1, 0⟩) 1 ⟨1, 5, 0, 1⟩
    0 (by decide) (by decide) (by decide) (by decide) (by decide) 3 (by decide)
  exact ⟨by simpa using h.1, by simpa using h.2.1, by simpa using h.2.2.1,
    by simpa using h.2.2.2⟩

/-- C5: a request occupies `expandedSteps = steps * (1 + speedFactor)` time
slots and advances the channel's cursor by exactly that amount; in
particular 200 steps at speed factor 0 give 200 slots and 200 steps at
speed factor 3 give 800. -/
theorem c5_expanded_steps (st : AutomatState) (id_motor : Nat) (d : SeqDict) :
    (add_seq st id_motor d).motors_len_seq id_motor =
      st.motors_len_seq id_motor + d.step * (1 + d.speed) ∧
    (add_seq initState 0 ⟨1, 200, 1, 0⟩).motors_len_seq 0 = 200 ∧
    (add_seq initState 0 ⟨1, 200, 1, 3⟩).motors_len_seq 0 = 800 :=
  ⟨add_seq_cursor_self st id_motor d, rfl, rfl⟩

end Stepper16
namespace Stepper16

/-- C6: every instruction text of the grammar
`a<0|1>_s<digits>_d<0|1>_v<digits>` parses into the four fields
`action = (a==1)`, `steps = decimal(s)`, `direction = (d==1)`,
`speedFactor = decimal(v)`, with no further range validation. -/
theorem c6_parse_grammar (b1 b2 : Char) (ds vs : List Char)
    (h1 : isBit b1 = true) (h2 : isBit b2 = true)
    (hds : ds ≠ []) (hdsd : ∀ c ∈ ds, isDigitChar c = true)
    (hvs : vs ≠ []) (hvsd : ∀ c ∈ vs, isDigitChar c = true) :
    parseSeq (goodSeq b1 ds b2 vs) =
      some ⟨bitVal b1, decVal ds, bitVal b2, decVal vs⟩ :=
  parse_good b1 b2 ds vs h1 h2 hds hdsd hvs hvsd

/-- C6 witness: `a1_s400_d1_v2` parses to action 1, 400 steps, direction 1,
speed factor 2. -/
theorem c6_parse_grammar_witness :
    parseSeq (goodSeq '1' ['4', '0', '0'] '1' ['2']) =
      some ⟨1, 400, 1, 2⟩ := by
  have h := c6_parse_grammar '1' '1' ['4', '0', '0'] ['2'] (by decide)
    (by decide) (by decide) (by decide) (by decide) (by decide)
  simpa using h

/-- C7: every instruction text that deviates from the grammar
`a<0|1>_s<digits>_d<0|1>_v<digits>` (wrong field order, missing field or
marker, non-numeric field, or anything else) yields no request at all —
`Seq.parse` returns `None`, never a partially-populated request — and
`add_seq` treats the failure as fatal, exiting with status 1 before
touching the state. -/
theorem c7_malformed_rejected (cs : List Char) (st : AutomatState)
    (id_motor : Nat) :
    matchesGrammar cs ∨
    (parseSeq cs = none ∧
      add_seq_checked st id_motor cs = Except.error 1) := by
  cases hc : parseSeq cs with
  | none =>
    right
    refine ⟨rfl, ?_⟩
    unfold add_seq_checked
    rw [hc]
  | some d =>
    left
    exact parse_some_shape cs d hc

/-- C8: a plan requesting more than 8 motors is rejected with exit status
1 (a non-zero status) before any Timeline is built — for any driver, mode
and gcode content, even unparseable one. -/
theorem c8_channel_overflow (driver mode : String)
    (gcode_seq : List (List (List Char)))
    (h : 8 < (gcode_seq.filter (fun g => g.length > 0)).length) :
    automat_setup driver mode gcode_seq = Except.error 1 ∧ (1 : Nat) ≠ 0 := by
  refine ⟨?_, by decide⟩
  unfold automat_setup
  simp [h]

/-- C8 witness: nine motors, each with one (unparsed) instruction, are
rejected. -/
theorem c8_channel_overflow_witness :
    automat_setup "A4988" "ONE"
      (List.replicate 9 [['a', '1', '_', 's', '1', '_', 'd', '1', '_', 'v',
        '0']]) = Except.error 1 :=
  (c8_channel_overflow "A4988" "ONE" _ (by decide)).1

/-- C9: one replay hands every PulseWord of the timeline, in slot order,
to the consumer's queue — exactly `len(timeline)` words — and the
timeline itself is only read. -/
theorem c9_animate_enqueues (st : AutomatState) (sm : SMState) :
    (animate st sm).queue = sm.queue ++ st.seq16bits ∧
    (animate st sm).queue.length =
      sm.queue.length + st.seq16bits.length :=
  ⟨rfl, by simp [animate, sm_put]⟩

/-- C10: if every channel's cursor is within the Timeline (true initially
and preserved by every merge), then after the growth step every index
written by `add_seq` — both the per-slot baseline writes `cursor + i`,
`i < expandedSteps`, and the strided action writes — is in bounds, the
buffer length never changes during the writes, and the cursor invariant
is re-established. -/
theorem c10_writes_in_bounds (st : AutomatState) (id_motor : Nat)
    (d : SeqDict)
    (hinv : ∀ m, st.motors_len_seq m ≤ st.seq16bits.length) :
    (∀ i < d.step * (1 + d.speed),
      st.motors_len_seq id_motor + i <
        (grow_seq st.seq16bits (st.motors_len_seq id_motor)
          (d.step * (1 + d.speed))).length) ∧
    (∀ t < strideCount (d.step * (1 + d.speed)) (1 + d.speed),
      st.motors_len_seq id_motor + t * (1 + d.speed) <
        (grow_seq st.seq16bits (st.motors_len_seq id_motor)
          (d.step * (1 + d.speed))).length) ∧
    (add_seq st id_motor d).seq16bits.length =
      (grow_seq st.seq16bits (st.motors_len_seq id_motor)
        (d.step * (1 + d.speed))).length ∧
    ∀ m, (add_seq st id_motor d).motors_len_seq m ≤
      (add_seq st id_motor d).seq16bits.length := by
  have hbound := length_grow_seq_bound st.seq16bits
    (st.motors_len_seq id_motor) (d.step * (1 + d.speed))
    (hinv id_motor)
  refine ⟨fun i hi => by omega, ?_, add_seq_length st id_motor d,
    add_seq_inv st id_motor d hinv⟩
  intro t ht
  rw [strideCount_mul _ _ (by omega)] at ht
  have : t * (1 + d.speed) < d.step * (1 + d.speed) :=
    (Nat.mul_lt_mul_right (by omega)).mpr ht
  omega

/-- C10 witness: 2 steps at speed factor 1 from the empty state; index 3 is
the last written slot of the 4 grown slots and the invariant holds after. -/
theorem c10_writes_in_bounds_witness :
    initState.motors_len_seq 0 + 3 <
      (grow_seq initState.seq16bits (initState.motors_len_seq 0) 4).length ∧
    (add_seq initState 0 ⟨1, 2, 0, 1⟩).seq16bits.length =
      (grow_seq initState.seq16bits (initState.motors_len_seq 0) 4).length ∧
    (add_seq initState 0 ⟨1, 2, 0, 1⟩).motors_len_seq 0 ≤
      (add_seq initState 0 ⟨1, 2, 0, 1⟩).seq16bits.length := by
  have h := c10_writes_in_bounds initState 0 ⟨1, 2, 0, 1⟩
    (fun m => by simp [initState])
  exact ⟨by simpa using h.1 3 (by decide), by simpa using h.2.2.1,
    h.2.2.2 0⟩

end Stepper16
